import Mathlib

/-!
Verification of the media-organizing pipeline in `iphone_backup.py`.

The Python source is shallowly embedded: the filesystem is a finite map from
path strings to file data plus a set of directories, external metadata reads
are represented by their possible outcomes stored per file, and every fallible
operation returns `Except PyErr`.  Functions keep the source's names.
-/

namespace IphoneBackup

/-! ### Python string primitives -/

/-- Python `str.lower()` (per-character lowering). -/
def pyLower (s : String) : String := ⟨s.data.map Char.toLower⟩

/-- Python `str.endswith(suffix)` for a single suffix. -/
def pyEndsWith (s e : String) : Bool := decide (e.data <:+ s.data)

/-- `os.path.join` for the two-argument uses in the source. -/
def pjoin (a b : String) : String := a ++ "/" ++ b

/-- Index of the last `'.'` in a character list, counting from `i`. -/
def lastDotIdxAux : List Char → Nat → Option Nat
  | [], _ => none
  | c :: cs, i =>
    match lastDotIdxAux cs (i + 1) with
    | some j => some j
    | none => if c = '.' then some i else none

/-- `os.path.splitext` on a basename: split at the last dot, except that a
basename consisting of leading dots only keeps an empty extension. -/
def splitext (s : String) : String × String :=
  match lastDotIdxAux s.data 0 with
  | none => (s, "")
  | some i =>
    if (s.data.take i).any (fun c => decide (c ≠ '.')) then
      (⟨s.data.take i⟩, ⟨s.data.drop i⟩)
    else (s, "")

/-! ### Data model: dates, metadata outcomes, files, the filesystem -/

/-- A creation timestamp at the granularity the organizer consumes. -/
structure Date where
  year : Nat
  month : Nat
  deriving DecidableEq, Repr

/-- Outcome of attempting to read the EXIF `DateTimeOriginal` tag of a file:
the read may raise (`err`), yield no EXIF dictionary (`noExif`), yield a
dictionary without the tag (`noTag`), hold a value `strptime` rejects
(`badValue`), or produce a parsed date. -/
inductive ExifOutcome where
  | err
  | noExif
  | noTag
  | badValue
  | date (d : Date)
  deriving DecidableEq, Repr

/-- Outcome of reading container metadata of a video file. -/
inductive VideoOutcome where
  | err
  | noMeta
  | noDate
  | date (d : Date)
  deriving DecidableEq, Repr

/-- Observable attributes of one file on disk. -/
structure FileData where
  content : Nat
  mtime : Date
  exif : ExifOutcome
  video : VideoOutcome
  deriving DecidableEq, Repr

/-- The filesystem: files keyed by absolute path (first match wins), the set
of directories, and the set of destination paths at which `shutil.copy2`
would raise (disk-full / permission faults, injected for error-path claims). -/
structure FS where
  files : List (String × FileData)
  dirs : List String
  copyFailAt : List String
  deriving DecidableEq, Repr

/-- Association-list lookup by path. -/
def alookup (p : String) : List (String × FileData) → Option FileData
  | [] => none
  | e :: l => if e.1 = p then some e.2 else alookup p l

/-- `os.path.isfile`. -/
def isFileB (fs : FS) (p : String) : Bool := (alookup p fs.files).isSome

/-- `os.path.isdir`. -/
def isDirB (fs : FS) (p : String) : Bool := decide (p ∈ fs.dirs)

/-- `os.path.exists`. -/
def pathExistsB (fs : FS) (p : String) : Bool := isFileB fs p || isDirB fs p

/-- Errors the embedded operations can raise. -/
inductive PyErr where
  | fileNotFound
  | fileExists
  | copyFail
  deriving DecidableEq, Repr

/-- `os.makedirs` with default `exist_ok=False`: raises when the leaf already
exists, otherwise records the directory. -/
def makedirs (fs : FS) (p : String) : Except PyErr FS :=
  if pathExistsB fs p then .error .fileExists
  else .ok { fs with dirs := p :: fs.dirs }

/-- `shutil.copy2 src dst`: raises if the source is missing or the destination
is a configured fault point; otherwise writes the source's data at `dst`. -/
def copy2 (fs : FS) (src dst : String) : Except PyErr FS :=
  match alookup src fs.files with
  | none => .error .fileNotFound
  | some fd =>
    if dst ∈ fs.copyFailAt then .error .copyFail
    else .ok { fs with files := (dst, fd) :: fs.files }

/-- `os.remove`. -/
def osRemove (fs : FS) (p : String) : Except PyErr FS :=
  match alookup p fs.files with
  | none => .error .fileNotFound
  | some _ => .ok { fs with files := fs.files.filter (fun e => decide (e.1 ≠ p)) }

/-- `os.path.getmtime` followed by `datetime.fromtimestamp`. -/
def getmtime (fs : FS) (p : String) : Except PyErr Date :=
  match alookup p fs.files with
  | none => .error .fileNotFound
  | some fd => .ok fd.mtime

/-! ### Classifier -/

def picture_extensions : List String := [".jpeg", ".jpg", ".png", ".heif"]

def video_extensions : List String := [".mp4", ".mov", ".avi"]

def audio_extensions : List String := [".wav"]

/-- `is_file_type`: case-insensitive extension test. -/
def is_file_type (p : String) (exts : List String) : Bool :=
  exts.any (fun e => pyEndsWith (pyLower p) e)

/-- The category chain of `organize_files` (lines 159-167 of the source):
`none` stands for Unclassified. -/
def classify (file : String) : Option String :=
  if is_file_type file picture_extensions then some "Pictures"
  else if is_file_type file video_extensions then some "Videos"
  else if is_file_type file audio_extensions then some "Audio"
  else none

/-! ### Metadata resolver -/

/-- `get_image_creation_date`: the whole read is wrapped in `try/except`, so
every outcome other than a parsed tag yields `None`. -/
def get_image_creation_date : ExifOutcome → Option Date
  | .date d => some d
  | _ => none

/-- `get_video_creation_date`: same swallow-all policy. -/
def get_video_creation_date : VideoOutcome → Option Date
  | .date d => some d
  | _ => none

/-- The metadata half of `get_creation_date` (lines 97-101): opening a missing
file raises inside the guarded readers, which the readers swallow. -/
def rawCreationDate (fs : FS) (p : String) : Option Date :=
  if is_file_type p picture_extensions then
    match alookup p fs.files with
    | none => none
    | some fd => get_image_creation_date fd.exif
  else if is_file_type p video_extensions then
    match alookup p fs.files with
    | none => none
    | some fd => get_video_creation_date fd.video
  else none

/-- `get_creation_date`: metadata when available, else the modification time
(which raises only when the file itself is gone). -/
def get_creation_date (fs : FS) (p : String) : Except PyErr Date :=
  match rawCreationDate fs p with
  | some d => .ok d
  | none => getmtime fs p

/-- Pure form of `get_creation_date` given the file's attributes. -/
def creationDateOf (fd : FileData) (p : String) : Date :=
  (if is_file_type p picture_extensions then get_image_creation_date fd.exif
   else if is_file_type p video_extensions then get_video_creation_date fd.video
   else none).getD fd.mtime

/-- `strftime "%B"`: full English month name. -/
def monthName : Nat → String
  | 1 => "January"
  | 2 => "February"
  | 3 => "March"
  | 4 => "April"
  | 5 => "May"
  | 6 => "June"
  | 7 => "July"
  | 8 => "August"
  | 9 => "September"
  | 10 => "October"
  | 11 => "November"
  | 12 => "December"
  | _ => ""

/-! ### Unique-filename generation -/

/-- The candidate name `f"{base}_{counter}{extension}"`. -/
def cand (base ext : String) (k : Nat) : String :=
  base ++ "_" ++ Nat.repr k ++ ext

/-- The `while os.path.exists(...)` loop of `generate_unique_filename`,
with explicit fuel; the chosen fuel is proved sufficient below. -/
def gufFuel (fs : FS) (dir base ext : String) : Nat → Nat → String → String
  | 0, _, current => current
  | fuel + 1, counter, current =>
    if pathExistsB fs (pjoin dir current) then
      gufFuel fs dir base ext fuel (counter + 1) (cand base ext counter)
    else current

/-- `generate_unique_filename`: probe `filename`, then `base_1.ext`,
`base_2.ext`, … until a name free in `directory` is found.  The fuel
`|files| + |dirs| + 2` always suffices (see `gufFuel_free_of_fuel`). -/
def generate_unique_filename (fs : FS) (directory filename : String) : String :=
  gufFuel fs directory (splitext filename).1 (splitext filename).2
    (fs.files.length + fs.dirs.length + 2) 1 filename

/-! ### Organizer -/

/-- Destination directory `os.path.join(dest_dir, "family", year, month, category)`. -/
def targetDirOf (dest : String) (d : Date) (cat : String) : String :=
  pjoin (pjoin (pjoin (pjoin dest "family") (Nat.repr d.year)) (monthName d.month)) cat

/-- Lines 172-173: `if not os.path.exists(target_dir): os.makedirs(target_dir)`. -/
def ensureDir (fs : FS) (p : String) : Except PyErr FS :=
  if pathExistsB fs p then .ok fs else makedirs fs p

/-- Lines 169-178: create the target directory, pick a unique name, copy. -/
def placeFile (dest : String) (fs : FS) (root file : String) (d : Date) (cat : String) :
    Except PyErr (Option String) × FS :=
  match ensureDir fs (targetDirOf dest d cat) with
  | .error e => (.error e, fs)
  | .ok fs1 =>
    match copy2 fs1 (pjoin root file)
        (pjoin (targetDirOf dest d cat)
          (generate_unique_filename fs1 (targetDirOf dest d cat) file)) with
    | .error e => (.error e, fs1)
    | .ok fs2 =>
      (.ok (some (pjoin (targetDirOf dest d cat)
        (generate_unique_filename fs1 (targetDirOf dest d cat) file))), fs2)

/-- One iteration of the inner loop of `organize_files`: date the file,
classify it, and either skip it (`.ok none`) or place it (`.ok (some target)`). -/
def processFile (dest : String) (fs : FS) (root file : String) :
    Except PyErr (Option String) × FS :=
  match get_creation_date fs (pjoin root file) with
  | .error e => (.error e, fs)
  | .ok d =>
    match classify file with
    | none => (.ok none, fs)
    | some cat => placeFile dest fs root file d cat

/-- The walk loop of `organize_files`, threading the accumulators
`copied_files` / `remaining_files`.  An exception aborts the loop and
propagates, carrying the filesystem state reached so far. -/
def organizeGo (dest : String) :
    FS → List (String × String) → List String → List String →
    Except PyErr (List String × List String) × FS
  | fs, [], placed, unplaced => (.ok (placed, unplaced), fs)
  | fs, rf :: rest, placed, unplaced =>
    match processFile dest fs rf.1 rf.2 with
    | (.error e, fs2) => (.error e, fs2)
    | (.ok none, fs2) => organizeGo dest fs2 rest placed (unplaced ++ [pjoin rf.1 rf.2])
    | (.ok (some t), fs2) => organizeGo dest fs2 rest (placed ++ [t]) unplaced

/-- `organize_files(source_dir, dest_dir)`, parameterized by the walk:
the `(root, filename)` pairs `os.walk` enumerates under the source tree. -/
def organize_files (fs : FS) (dest : String) (walk : List (String × String)) :
    Except PyErr (List String × List String) × FS :=
  organizeGo dest fs walk [] []

/-! ### Run controller (`process_zip_and_organize_files`) -/

def download_dir : String := "/path/to/downloaded/zips"

def extract_to : String := "/path/to/extracted/files"

def dest_dir : String := "/path/to/destination/directory"

def zip_file_path : String := pjoin download_dir "iCloud_backup.zip"

/-- `startsWithL pat l` tests whether `l` begins with `pat`. -/
def startsWithL : List Char → List Char → Bool
  | [], _ => true
  | _ :: _, [] => false
  | a :: as, b :: bs => decide (a = b) && startsWithL as bs

/-- `p` is the directory `dir` itself or lies beneath it. -/
def underPath (dir p : String) : Bool :=
  decide (p = dir) || startsWithL (dir ++ "/").data p.data

/-- `shutil.rmtree`: remove the directory and everything beneath it. -/
def rmtree (fs : FS) (dir : String) : FS :=
  { fs with
    files := fs.files.filter (fun e => !underPath dir e.1),
    dirs := fs.dirs.filter (fun d => !underPath dir d) }

/-- `clean_up`: delete the directory tree if it exists. -/
def clean_up (fs : FS) (dir : String) : FS :=
  if pathExistsB fs dir then rmtree fs dir else fs

/-- `zipfile.extractall`: deposit the archive entries (relative paths paired
with file data) under `extract_to`, creating the staging directory. -/
def addZipEntries (fs : FS) (entries : List (String × FileData)) : FS :=
  { fs with
    files := entries.map (fun e => (pjoin extract_to e.1, e.2)) ++ fs.files,
    dirs := extract_to :: fs.dirs }

/-- `extract_zip`: opening a missing archive raises. -/
def extract_zip (fs : FS) (entries : List (String × FileData)) : Except PyErr FS :=
  if isFileB fs zip_file_path then .ok (addZipEntries fs entries)
  else .error .fileNotFound

/-- `process_zip_and_organize_files`: extract, organize, report (prints are
not modelled), and clean up only when `remaining_files` is empty. -/
def process_zip_and_organize_files (fs : FS) (entries : List (String × FileData))
    (walk : List (String × String)) :
    Except PyErr (List String × List String) × FS :=
  match extract_zip fs entries with
  | .error e => (.error e, fs)
  | .ok fs1 =>
    match organize_files fs1 dest_dir walk with
    | (.error e, fs2) => (.error e, fs2)
    | (.ok (copied, remaining), fs2) =>
      if remaining.isEmpty then
        match osRemove (clean_up fs2 extract_to) zip_file_path with
        | .error e => (.error e, clean_up fs2 extract_to)
        | .ok fs4 => (.ok (copied, remaining), fs4)
      else (.ok (copied, remaining), fs2)

/-! ### Decimal representation facts -/

/-- Numeric value of a decimal digit character. -/
def charVal (c : Char) : Nat := c.toNat - '0'.toNat

/-- Value of a big-endian decimal digit string. -/
def decVal (l : List Char) : Nat := l.foldl (fun a c => 10 * a + charVal c) 0

lemma charVal_digitChar (m : Nat) (h : m < 10) : charVal (Nat.digitChar m) = m := by
  interval_cases m <;> rfl

lemma toDigitsCore_eq_append (b : Nat) :
    ∀ (f n : Nat) (ds : List Char),
      Nat.toDigitsCore b f n ds = Nat.toDigitsCore b f n [] ++ ds := by
  intro f
  induction f with
  | zero => intro n ds; simp [Nat.toDigitsCore]
  | succ f ih =>
    intro n ds
    simp only [Nat.toDigitsCore]
    by_cases h : n / b = 0
    · simp [h]
    · simp only [h, if_false]
      rw [ih (n / b) (Nat.digitChar (n % b) :: ds), ih (n / b) [Nat.digitChar (n % b)]]
      simp

lemma decVal_append_singleton (l : List Char) (c : Char) :
    decVal (l ++ [c]) = 10 * decVal l + charVal c := by
  simp [decVal, List.foldl_append]

lemma decVal_toDigitsCore :
    ∀ (f n : Nat), n < f → decVal (Nat.toDigitsCore 10 f n []) = n := by
  intro f
  induction f with
  | zero => intro n h; exact absurd h (Nat.not_lt_zero n)
  | succ f ih =>
    intro n h
    simp only [Nat.toDigitsCore]
    by_cases h10 : n / 10 = 0
    · have hcv := charVal_digitChar (n % 10) (by omega)
      simp only [h10, if_true, if_pos]
      simp [decVal]
      rw [hcv]
      omega
    · simp only [h10, if_false]
      rw [toDigitsCore_eq_append, decVal_append_singleton,
        ih (n / 10) (by omega), charVal_digitChar (n % 10) (by omega)]
      omega

lemma repr_injective : Function.Injective Nat.repr := by
  intro a b h
  have hd : Nat.toDigitsCore 10 (a + 1) a [] = Nat.toDigitsCore 10 (b + 1) b [] :=
    congrArg String.data h
  have ha := decVal_toDigitsCore (a + 1) a (Nat.lt_succ_self a)
  have hb := decVal_toDigitsCore (b + 1) b (Nat.lt_succ_self b)
  rw [← ha, ← hb, hd]

lemma string_append_cancel_left {a b c : String} (h : a ++ b = a ++ c) : b = c := by
  apply String.ext
  have := congrArg String.data h
  rw [String.data_append, String.data_append] at this
  exact List.append_cancel_left this

lemma string_append_cancel_right {a b c : String} (h : a ++ c = b ++ c) : a = b := by
  apply String.ext
  have := congrArg String.data h
  rw [String.data_append, String.data_append] at this
  exact List.append_cancel_right this

lemma cand_injective (base ext : String) : Function.Injective (cand base ext) := by
  intro i j h
  unfold cand at h
  exact repr_injective
    (string_append_cancel_left (string_append_cancel_right h))

lemma pjoin_right_injective (d : String) : Function.Injective (pjoin d) := by
  intro a b h
  exact string_append_cancel_left (h : d ++ "/" ++ a = d ++ "/" ++ b)

/-! ### A free candidate name always exists (pigeonhole) -/

lemma alookup_isSome_mem {p : String} :
    ∀ {l : List (String × FileData)}, (alookup p l).isSome = true → p ∈ l.map Prod.fst := by
  intro l
  induction l with
  | nil => simp [alookup]
  | cons e l ih =>
    simp only [alookup]
    by_cases h : e.1 = p
    · intro _
      exact h ▸ List.mem_cons_self _ _
    · simp only [h, if_false, List.map_cons]
      intro h2
      exact List.mem_cons_of_mem _ (ih h2)

lemma exists_free_cand (fs : FS) (dir base ext : String) :
    ∃ k, 1 ≤ k ∧ k ≤ fs.files.length + fs.dirs.length + 1 ∧
      pathExistsB fs (pjoin dir (cand base ext k)) = false := by
  by_contra hc
  push_neg at hc
  have hall : ∀ k, 1 ≤ k → k ≤ fs.files.length + fs.dirs.length + 1 →
      pathExistsB fs (pjoin dir (cand base ext k)) = true := by
    intro k h1 h2
    have h3 := hc k h1 h2
    cases hb : pathExistsB fs (pjoin dir (cand base ext k)) with
    | false => exact absurd hb h3
    | true => rfl
  have hnd : ((List.range (fs.files.length + fs.dirs.length + 1)).map
      (fun i => pjoin dir (cand base ext (i + 1)))).Nodup := by
    apply List.Nodup.map _ (List.nodup_range _)
    intro i j hij
    have := cand_injective base ext (pjoin_right_injective dir hij)
    omega
  have hsub : ((List.range (fs.files.length + fs.dirs.length + 1)).map
      (fun i => pjoin dir (cand base ext (i + 1)))) ⊆ fs.files.map Prod.fst ++ fs.dirs := by
    intro x hx
    obtain ⟨i, hi, rfl⟩ := List.mem_map.mp hx
    have hiR := List.mem_range.mp hi
    have hPE := hall (i + 1) (by omega) (by omega)
    rw [pathExistsB, Bool.or_eq_true] at hPE
    rcases hPE with hf | hd
    · exact List.mem_append.mpr (.inl (alookup_isSome_mem hf))
    · exact List.mem_append.mpr (.inr (by simpa [isDirB] using hd))
  have hle := (List.subperm_of_subset hnd hsub).length_le
  simp only [List.length_map, List.length_range, List.length_append] at hle
  omega

/-! ### Properties of the collision-resolution loop -/

lemma gufFuel_stop (fs : FS) (dir base ext : String) (fuel counter : Nat) (current : String)
    (hfree : pathExistsB fs (pjoin dir current) = false) (hf : 1 ≤ fuel) :
    gufFuel fs dir base ext fuel counter current = current := by
  cases fuel with
  | zero => omega
  | succ f => simp [gufFuel, hfree]

lemma gufFuel_free (fs : FS) (dir base ext : String) :
    ∀ (fuel counter : Nat) (current : String) (K : Nat),
      pathExistsB fs (pjoin dir (cand base ext K)) = false →
      counter ≤ K → K + 2 - counter ≤ fuel →
      pathExistsB fs (pjoin dir (gufFuel fs dir base ext fuel counter current)) = false := by
  intro fuel
  induction fuel with
  | zero => intro counter current K hK hcK hf; omega
  | succ f ih =>
    intro counter current K hK hcK hf
    by_cases h : pathExistsB fs (pjoin dir current) = true
    · have heq : gufFuel fs dir base ext (f + 1) counter current
        = gufFuel fs dir base ext f (counter + 1) (cand base ext counter) := by
        simp [gufFuel, h]
      rw [heq]
      rcases Nat.eq_or_lt_of_le hcK with he | hlt
      · subst he
        rw [gufFuel_stop fs dir base ext f (counter + 1) (cand base ext counter) hK (by omega)]
        exact hK
      · exact ih (counter + 1) _ K hK (by omega) (by omega)
    · cases hb : pathExistsB fs (pjoin dir current) with
      | true => exact absurd hb h
      | false =>
        rw [gufFuel_stop fs dir base ext (f + 1) counter current hb (by omega)]
        exact hb

lemma gufFuel_shape (fs : FS) (dir base ext : String) :
    ∀ (fuel counter : Nat) (current : String),
      gufFuel fs dir base ext fuel counter current = current ∨
      ∃ j, counter ≤ j ∧ gufFuel fs dir base ext fuel counter current = cand base ext j := by
  intro fuel
  induction fuel with
  | zero => intro counter current; exact .inl rfl
  | succ f ih =>
    intro counter current
    by_cases h : pathExistsB fs (pjoin dir current) = true
    · have heq : gufFuel fs dir base ext (f + 1) counter current
        = gufFuel fs dir base ext f (counter + 1) (cand base ext counter) := by
        simp [gufFuel, h]
      rw [heq]
      rcases ih (counter + 1) (cand base ext counter) with h1 | ⟨j, hj1, hj2⟩
      · exact .inr ⟨counter, le_refl _, h1⟩
      · exact .inr ⟨j, by omega, hj2⟩
    · left
      cases hb : pathExistsB fs (pjoin dir current) with
      | true => exact absurd hb h
      | false => exact gufFuel_stop fs dir base ext (f + 1) counter current hb (by omega)

lemma gufFuel_min (fs : FS) (dir base ext : String) :
    ∀ (fuel counter : Nat) (current : String) (K : Nat),
      pathExistsB fs (pjoin dir (cand base ext K)) = false →
      counter ≤ K → K + 2 - counter ≤ fuel →
      pathExistsB fs (pjoin dir current) = true →
      ∃ j, counter ≤ j ∧
        gufFuel fs dir base ext fuel counter current = cand base ext j ∧
        pathExistsB fs (pjoin dir (cand base ext j)) = false ∧
        ∀ i, counter ≤ i → i < j → pathExistsB fs (pjoin dir (cand base ext i)) = true := by
  intro fuel
  induction fuel with
  | zero => intro counter current K hK hcK hf hcur; omega
  | succ f ih =>
    intro counter current K hK hcK hf hcur
    have heq : gufFuel fs dir base ext (f + 1) counter current
        = gufFuel fs dir base ext f (counter + 1) (cand base ext counter) := by
      simp [gufFuel, hcur]
    rw [heq]
    by_cases hc : pathExistsB fs (pjoin dir (cand base ext counter)) = true
    · have hcltK : counter < K := by
        rcases Nat.eq_or_lt_of_le hcK with he | hlt
        · subst he
          simp [hc] at hK
        · exact hlt
      obtain ⟨j, hj1, hj2, hj3, hj4⟩ :=
        ih (counter + 1) (cand base ext counter) K hK (by omega) (by omega) hc
      refine ⟨j, by omega, hj2, hj3, ?_⟩
      intro i hi1 hi2
      rcases Nat.eq_or_lt_of_le hi1 with he | hlt
      · exact he ▸ hc
      · exact hj4 i (by omega) hi2
    · cases hb : pathExistsB fs (pjoin dir (cand base ext counter)) with
      | true => exact absurd hb hc
      | false =>
        refine ⟨counter, le_refl _, ?_, hb, ?_⟩
        · exact gufFuel_stop fs dir base ext f (counter + 1) (cand base ext counter) hb
            (by omega)
        · intro i h1 h2
          omega

lemma guf_free (fs : FS) (dir filename : String) :
    pathExistsB fs (pjoin dir (generate_unique_filename fs dir filename)) = false := by
  obtain ⟨K, hK1, hK2, hK3⟩ :=
    exists_free_cand fs dir (splitext filename).1 (splitext filename).2
  rw [generate_unique_filename]
  exact gufFuel_free fs dir _ _ _ 1 filename K hK3 hK1 (by omega)

/-! ### Classifier facts -/

lemma both_suffix_comparable {l e1 e2 : List Char} (h1 : e1 <:+ l) (h2 : e2 <:+ l) :
    e1 <:+ e2 ∨ e2 <:+ e1 := by
  rcases le_total e1.length e2.length with h | h
  · exact .inl (List.suffix_of_suffix_length_le h1 h2 h)
  · exact .inr (List.suffix_of_suffix_length_le h2 h1 h)

lemma is_file_type_iff (p : String) (exts : List String) :
    is_file_type p exts = true ↔ ∃ e ∈ exts, e.data <:+ (pyLower p).data := by
  simp [is_file_type, pyEndsWith, List.any_eq_true]

lemma disjoint_ext {f : String} {E1 E2 : List String}
    (h : is_file_type f E1 = true)
    (hdis : ∀ e1 ∈ E1, ∀ e2 ∈ E2, ¬(e1.data <:+ e2.data) ∧ ¬(e2.data <:+ e1.data)) :
    is_file_type f E2 = false := by
  rcases (is_file_type_iff f E1).mp h with ⟨a, ha, has⟩
  cases hp : is_file_type f E2 with
  | false => rfl
  | true =>
    rcases (is_file_type_iff f E2).mp hp with ⟨b, hb, hbs⟩
    rcases both_suffix_comparable has hbs with hc | hc
    · exact absurd hc (hdis a ha b hb).1
    · exact absurd hc (hdis a ha b hb).2

/-- C2 (amended: the source also treats `.avi` as a video container): a
filename whose lowercased form ends in a Pictures extension classifies as
Pictures; same for the Videos set `{.mp4, .mov, .avi}` and the Audio set
`{.wav}`; a filename matching none of the sets is Unclassified. -/
theorem classify_by_extension (f : String) :
    (is_file_type f picture_extensions = true → classify f = some "Pictures")
  ∧ (is_file_type f video_extensions = true → classify f = some "Videos")
  ∧ (is_file_type f audio_extensions = true → classify f = some "Audio")
  ∧ (is_file_type f picture_extensions = false → is_file_type f video_extensions = false →
      is_file_type f audio_extensions = false → classify f = none) := by
  refine ⟨?_, ?_, ?_, ?_⟩
  · intro h
    simp [classify, h]
  · intro h
    have h1 : is_file_type f picture_extensions = false := disjoint_ext h (by decide)
    simp [classify, h, h1]
  · intro h
    have h1 : is_file_type f picture_extensions = false := disjoint_ext h (by decide)
    have h2 : is_file_type f video_extensions = false := disjoint_ext h (by decide)
    simp [classify, h, h1, h2]
  · intro h1 h2 h3
    simp [classify, h1, h2, h3]

/-- C2 counterexample: the claim's Videos set is `{.mp4, .mov}` and predicts
Unclassified for every other extension, but the source classifies `.avi`
files as Videos. -/
theorem classify_avi_counterexample :
    classify "clip.avi" = some "Videos" ∧ classify "clip.avi" ≠ none := by
  constructor
  · decide
  · decide

/-- Witness for C2: a concrete uppercase picture filename. -/
theorem classify_by_extension_witness :
    is_file_type "IMG_0001.JPG" picture_extensions = true ∧
    classify "IMG_0001.JPG" = some "Pictures" :=
  ⟨by decide, (classify_by_extension "IMG_0001.JPG").1 (by decide)⟩

/-! ### Claim theorems for the unique-filename generator -/

/-- C3: if `directory/filename` is free the original name is returned; on a
collision the result is `base_k.ext` for the first non-colliding counter
`k ≥ 1`; the returned name never denotes an existing entry. -/
theorem unique_filename_spec (fs : FS) (dir filename : String) :
    (pathExistsB fs (pjoin dir filename) = false →
      generate_unique_filename fs dir filename = filename)
  ∧ (pathExistsB fs (pjoin dir filename) = true →
      ∃ k, 1 ≤ k ∧
        generate_unique_filename fs dir filename
          = cand (splitext filename).1 (splitext filename).2 k ∧
        pathExistsB fs
          (pjoin dir (cand (splitext filename).1 (splitext filename).2 k)) = false ∧
        ∀ j, 1 ≤ j → j < k →
          pathExistsB fs
            (pjoin dir (cand (splitext filename).1 (splitext filename).2 j)) = true)
  ∧ pathExistsB fs (pjoin dir (generate_unique_filename fs dir filename)) = false := by
  obtain ⟨K, hK1, hK2, hK3⟩ :=
    exists_free_cand fs dir (splitext filename).1 (splitext filename).2
  refine ⟨?_, ?_, guf_free fs dir filename⟩
  · intro h
    rw [generate_unique_filename]
    exact gufFuel_stop fs dir _ _ (fs.files.length + fs.dirs.length + 2) 1 filename h
      (by omega)
  · intro h
    rw [generate_unique_filename]
    obtain ⟨j, hj1, hj2, hj3, hj4⟩ :=
      gufFuel_min fs dir _ _ (fs.files.length + fs.dirs.length + 2) 1 filename K hK3 hK1
        (by omega) h
    exact ⟨j, hj1, hj2, hj3, fun i hi1 hi2 => hj4 i hi1 hi2⟩

/-- Shared sample file attributes for concrete witnesses. -/
def sampleFile : FileData :=
  { content := 0, mtime := ⟨3, 6⟩, exif := .err, video := .err }

/-- Concrete directory state with `a.jpg` and `a_1.jpg` already present. -/
def collisionFS : FS :=
  { files := [(pjoin "d" "a.jpg", sampleFile), (pjoin "d" "a_1.jpg", sampleFile)],
    dirs := ["d"], copyFailAt := [] }

/-- Witness for C3: with `a.jpg` and `a_1.jpg` taken, the loop settles on the
first free counter. -/
theorem unique_filename_spec_witness :
    pathExistsB collisionFS (pjoin "d" "a.jpg") = true ∧
    (∃ k, 1 ≤ k ∧
      generate_unique_filename collisionFS "d" "a.jpg"
        = cand (splitext "a.jpg").1 (splitext "a.jpg").2 k ∧
      pathExistsB collisionFS
        (pjoin "d" (cand (splitext "a.jpg").1 (splitext "a.jpg").2 k)) = false ∧
      ∀ j, 1 ≤ j → j < k →
        pathExistsB collisionFS
          (pjoin "d" (cand (splitext "a.jpg").1 (splitext "a.jpg").2 j)) = true) :=
  ⟨by decide, (unique_filename_spec collisionFS "d" "a.jpg").2.1 (by decide)⟩

/-- C10: a non-colliding suffixed candidate always exists in a finite
directory state, and the loop indeed exits with a free name. -/
theorem unique_filename_terminates (fs : FS) (dir filename : String) :
    (∃ N, pathExistsB fs
        (pjoin dir (cand (splitext filename).1 (splitext filename).2 N)) = false)
  ∧ pathExistsB fs (pjoin dir (generate_unique_filename fs dir filename)) = false := by
  obtain ⟨K, _, _, hK3⟩ :=
    exists_free_cand fs dir (splitext filename).1 (splitext filename).2
  exact ⟨⟨K, hK3⟩, guf_free fs dir filename⟩

/-! ### Claim theorem for the metadata resolver -/

/-- C4: for an existing file the resolver always returns a timestamp; every
non-date outcome of the guarded EXIF / container reads yields `none` (the
exception is swallowed locally), in which case — and always for audio or
other non-picture, non-video files — the modification time is used. -/
theorem creation_date_total_fallback (fs : FS) (p : String) (fd : FileData)
    (h : alookup p fs.files = some fd) :
    (∃ d, get_creation_date fs p = .ok d)
  ∧ (rawCreationDate fs p = none → get_creation_date fs p = .ok fd.mtime)
  ∧ (∀ o : ExifOutcome, (∀ d, o ≠ .date d) → get_image_creation_date o = none)
  ∧ (∀ o : VideoOutcome, (∀ d, o ≠ .date d) → get_video_creation_date o = none)
  ∧ (is_file_type p picture_extensions = false → is_file_type p video_extensions = false →
      get_creation_date fs p = .ok fd.mtime) := by
  refine ⟨?_, ?_, ?_, ?_, ?_⟩
  · cases hr : rawCreationDate fs p with
    | some d => exact ⟨d, by simp [get_creation_date, hr]⟩
    | none => exact ⟨fd.mtime, by simp [get_creation_date, hr, getmtime, h]⟩
  · intro hr
    simp [get_creation_date, hr, getmtime, h]
  · intro o ho
    cases o with
    | date d => exact absurd rfl (ho d)
    | _ => rfl
  · intro o ho
    cases o with
    | date d => exact absurd rfl (ho d)
    | _ => rfl
  · intro h1 h2
    have hr : rawCreationDate fs p = none := by simp [rawCreationDate, h1, h2]
    simp [get_creation_date, hr, getmtime, h]

/-- Concrete filesystem holding one audio file. -/
def audioFS : FS := { files := [(pjoin "s" "x.wav", sampleFile)], dirs := [], copyFailAt := [] }

/-- Witness for C4: a `.wav` file resolves to its modification time. -/
theorem creation_date_total_fallback_witness :
    get_creation_date audioFS (pjoin "s" "x.wav") = .ok sampleFile.mtime :=
  (creation_date_total_fallback audioFS (pjoin "s" "x.wav") sampleFile rfl).2.2.2.2
    (by decide) (by decide)

/-! ### Small filesystem lemmas -/

lemma alookup_cons_ne {p q : String} {fd : FileData} {l : List (String × FileData)}
    (h : q ≠ p) : alookup p ((q, fd) :: l) = alookup p l := by
  simp [alookup, h]

lemma pathExistsB_cons (fs : FS) (t : String) (fd : FileData) {q : String}
    (h : pathExistsB fs q = true) :
    pathExistsB { fs with files := (t, fd) :: fs.files } q = true := by
  rw [pathExistsB, Bool.or_eq_true] at h ⊢
  rcases h with h | h
  · left
    by_cases ht : t = q
    · simp [isFileB, alookup, ht]
    · rw [isFileB] at h ⊢
      rw [alookup_cons_ne ht]
      exact h
  · exact .inr h

lemma isSome_exists {o : Option FileData} (h : o.isSome = true) : ∃ fd, o = some fd := by
  cases o with
  | none => cases h
  | some fd => exact ⟨fd, rfl⟩

/-! ### Inversion lemmas for the organizer's step -/

lemma ensureDir_ok (fs : FS) (p : String) :
    ∃ fs1, ensureDir fs p = .ok fs1 ∧ fs1.files = fs.files ∧
      fs1.copyFailAt = fs.copyFailAt ∧
      (∀ q, pathExistsB fs q = true → pathExistsB fs1 q = true) := by
  cases h : pathExistsB fs p with
  | true => exact ⟨fs, by simp [ensureDir, h], rfl, rfl, fun q hq => hq⟩
  | false =>
    refine ⟨{ fs with dirs := p :: fs.dirs }, ?_, rfl, rfl, ?_⟩
    · simp [ensureDir, h, makedirs]
    · intro q hq
      rw [pathExistsB, Bool.or_eq_true] at hq ⊢
      rcases hq with hq | hq
      · exact .inl hq
      · right
        rw [isDirB, decide_eq_true_iff] at hq ⊢
        exact List.mem_cons_of_mem _ hq

lemma copy2_ok_inv {fs : FS} {src dst : String} {fs2 : FS}
    (h : copy2 fs src dst = .ok fs2) :
    ∃ fd, alookup src fs.files = some fd ∧
      fs2 = { fs with files := (dst, fd) :: fs.files } := by
  unfold copy2 at h
  split at h
  · cases h
  · next fd heq =>
    split at h
    · cases h
    · cases h
      exact ⟨fd, heq, rfl⟩

lemma copy2_err {fs : FS} {src dst : String} {e : PyErr}
    (h : copy2 fs src dst = .error e) : e = .fileNotFound ∨ e = .copyFail := by
  unfold copy2 at h
  split at h
  · cases h
    exact .inl rfl
  · split at h
    · cases h
      exact .inr rfl
    · cases h

lemma get_creation_date_err {fs : FS} {p : String} {e : PyErr}
    (h : get_creation_date fs p = .error e) : e = .fileNotFound := by
  unfold get_creation_date at h
  split at h
  · cases h
  · unfold getmtime at h
    split at h
    · cases h
      rfl
    · cases h

lemma get_creation_date_of_lookup {fs : FS} {p : String} {fd : FileData}
    (h : alookup p fs.files = some fd) :
    get_creation_date fs p = .ok (creationDateOf fd p) := by
  unfold get_creation_date rawCreationDate creationDateOf getmtime
  simp only [h]
  by_cases h1 : is_file_type p picture_extensions = true
  · rw [if_pos h1]
    cases get_image_creation_date fd.exif with
    | some d => rfl
    | none => rfl
  · rw [if_neg h1]
    by_cases h2 : is_file_type p video_extensions = true
    · rw [if_pos h2]
      cases get_video_creation_date fd.video with
      | some d => rfl
      | none => rfl
    · rw [if_neg h2]
      rfl

lemma processFile_none_inv {dest : String} {fs : FS} {root file : String} {fs2 : FS}
    (h : processFile dest fs root file = (.ok none, fs2)) :
    classify file = none ∧ fs2 = fs := by
  unfold processFile at h
  cases hgd : get_creation_date fs (pjoin root file) with
  | error e => simp only [hgd] at h; simp at h
  | ok d =>
    simp only [hgd] at h
    cases hcl : classify file with
    | none =>
      simp only [hcl] at h
      simp only [Prod.mk.injEq] at h
      exact ⟨rfl, h.2.symm⟩
    | some cat =>
      simp only [hcl] at h
      unfold placeFile at h
      obtain ⟨fs1, he, _, _, _⟩ := ensureDir_ok fs (targetDirOf dest d cat)
      simp only [he] at h
      cases hc2 : copy2 fs1 (pjoin root file)
          (pjoin (targetDirOf dest d cat)
            (generate_unique_filename fs1 (targetDirOf dest d cat) file)) with
      | error e => simp only [hc2] at h; simp at h
      | ok fs3 => simp only [hc2] at h; simp at h

lemma processFile_some_inv {dest : String} {fs : FS} {root file t : String} {fs2 : FS}
    (h : processFile dest fs root file = (.ok (some t), fs2)) :
    ∃ d cat fs1 fd,
      get_creation_date fs (pjoin root file) = .ok d ∧
      classify file = some cat ∧
      fs1.files = fs.files ∧
      (∀ q, pathExistsB fs q = true → pathExistsB fs1 q = true) ∧
      t = pjoin (targetDirOf dest d cat)
            (generate_unique_filename fs1 (targetDirOf dest d cat) file) ∧
      pathExistsB fs1 t = false ∧
      alookup (pjoin root file) fs.files = some fd ∧
      fs2 = { fs1 with files := (t, fd) :: fs1.files } := by
  unfold processFile at h
  cases hgd : get_creation_date fs (pjoin root file) with
  | error e => simp only [hgd] at h; simp at h
  | ok d =>
    simp only [hgd] at h
    cases hcl : classify file with
    | none => simp only [hcl] at h; simp at h
    | some cat =>
      simp only [hcl] at h
      unfold placeFile at h
      obtain ⟨fs1, he, hf1, _, hmono⟩ := ensureDir_ok fs (targetDirOf dest d cat)
      simp only [he] at h
      cases hc2 : copy2 fs1 (pjoin root file)
          (pjoin (targetDirOf dest d cat)
            (generate_unique_filename fs1 (targetDirOf dest d cat) file)) with
      | error e => simp only [hc2] at h; simp at h
      | ok fs3 =>
        simp only [hc2] at h
        obtain ⟨fd, hfd, rfl⟩ := copy2_ok_inv hc2
        simp only [Prod.mk.injEq, Except.ok.injEq, Option.some.injEq] at h
        obtain ⟨ht, hfs2⟩ := h
        refine ⟨d, cat, fs1, fd, rfl, rfl, hf1, hmono, ht.symm, ?_, ?_, ?_⟩
        · rw [← ht]
          exact guf_free fs1 (targetDirOf dest d cat) file
        · rw [← hf1]
          exact hfd
        · rw [← hfs2, ← ht]

lemma processFile_err_inv {dest : String} {fs : FS} {root file : String}
    {e : PyErr} {fs2 : FS}
    (h : processFile dest fs root file = (.error e, fs2)) :
    e ≠ .fileExists ∧ fs2.files = fs.files ∧
      (∀ q, pathExistsB fs q = true → pathExistsB fs2 q = true) := by
  unfold processFile at h
  cases hgd : get_creation_date fs (pjoin root file) with
  | error e2 =>
    simp only [hgd] at h
    simp only [Prod.mk.injEq, Except.error.injEq] at h
    obtain ⟨rfl, rfl⟩ := h
    refine ⟨?_, rfl, fun q hq => hq⟩
    rw [get_creation_date_err hgd]
    decide
  | ok d =>
    simp only [hgd] at h
    cases hcl : classify file with
    | none => simp only [hcl] at h; simp at h
    | some cat =>
      simp only [hcl] at h
      unfold placeFile at h
      obtain ⟨fs1, he, hf1, _, hmono⟩ := ensureDir_ok fs (targetDirOf dest d cat)
      simp only [he] at h
      cases hc2 : copy2 fs1 (pjoin root file)
          (pjoin (targetDirOf dest d cat)
            (generate_unique_filename fs1 (targetDirOf dest d cat) file)) with
      | error e2 =>
        simp only [hc2] at h
        simp only [Prod.mk.injEq, Except.error.injEq] at h
        obtain ⟨rfl, rfl⟩ := h
        refine ⟨?_, hf1, hmono⟩
        rcases copy2_err hc2 with h2 | h2 <;> rw [h2] <;> decide
      | ok fs3 => simp only [hc2] at h; simp at h

/-- Step-level preservation: a single iteration never deletes an existing
path and never changes the data stored at one. -/
lemma processFile_pres (dest : String) (fs : FS) (root file : String) :
    (∀ q, pathExistsB fs q = true →
        pathExistsB (processFile dest fs root file).2 q = true)
  ∧ (∀ q, pathExistsB fs q = true →
        alookup q (processFile dest fs root file).2.files = alookup q fs.files) := by
  cases hpf : processFile dest fs root file with
  | mk r fs2 =>
    cases r with
    | error e =>
      obtain ⟨-, hfiles, hmono⟩ := processFile_err_inv hpf
      exact ⟨fun q hq => hmono q hq, fun q _ => by rw [show ((Except.error e : Except PyErr (Option String)), fs2).2.files = fs2.files from rfl, hfiles]⟩
    | ok o =>
      cases o with
      | none =>
        obtain ⟨-, hfs⟩ := processFile_none_inv hpf
        subst hfs
        exact ⟨fun q hq => hq, fun q _ => rfl⟩
      | some t =>
        obtain ⟨d, cat, fs1, fd, -, -, hf1, hmono, ht, hfresh, -, hfs2⟩ :=
          processFile_some_inv hpf
        subst hfs2
        constructor
        · intro q hq
          exact pathExistsB_cons fs1 t fd (hmono q hq)
        · intro q hq
          have hq1 : pathExistsB fs1 q = true := hmono q hq
          have hne : t ≠ q := by
            intro hqt
            rw [hqt, hq1] at hfresh
            cases hfresh
          show alookup q ((t, fd) :: fs1.files) = alookup q fs.files
          rw [alookup_cons_ne hne, hf1]

/-- Definitional unfolding of the walk loop on a cons cell. -/
lemma organizeGo_cons (dest : String) (fs : FS) (rf : String × String)
    (rest : List (String × String)) (placed unplaced : List String) :
    organizeGo dest fs (rf :: rest) placed unplaced =
      match processFile dest fs rf.1 rf.2 with
      | (.error e, fs2) => (.error e, fs2)
      | (.ok none, fs2) => organizeGo dest fs2 rest placed (unplaced ++ [pjoin rf.1 rf.2])
      | (.ok (some t), fs2) => organizeGo dest fs2 rest (placed ++ [t]) unplaced := rfl

/-- Walk-level preservation, independent of success or failure. -/
lemma organizeGo_pres (dest : String) :
    ∀ (walk : List (String × String)) (fs : FS) (placed unplaced : List String),
      (∀ q, pathExistsB fs q = true →
          pathExistsB (organizeGo dest fs walk placed unplaced).2 q = true)
    ∧ (∀ q, pathExistsB fs q = true →
          alookup q (organizeGo dest fs walk placed unplaced).2.files
            = alookup q fs.files) := by
  intro walk
  induction walk with
  | nil => exact fun fs placed unplaced => ⟨fun q h => h, fun q _ => rfl⟩
  | cons rf rest ih =>
    intro fs placed unplaced
    obtain ⟨hp1, hp2⟩ := processFile_pres dest fs rf.1 rf.2
    rw [organizeGo_cons]
    cases hpf : processFile dest fs rf.1 rf.2 with
    | mk r fs2 =>
      rw [hpf] at hp1 hp2
      cases r with
      | error e => exact ⟨hp1, hp2⟩
      | ok o =>
        cases o with
        | none =>
          obtain ⟨ih1, ih2⟩ := ih fs2 placed (unplaced ++ [pjoin rf.1 rf.2])
          exact ⟨fun q hq => ih1 q (hp1 q hq),
            fun q hq => by rw [ih2 q (hp1 q hq), hp2 q hq]⟩
        | some t =>
          obtain ⟨ih1, ih2⟩ := ih fs2 (placed ++ [t]) unplaced
          exact ⟨fun q hq => ih1 q (hp1 q hq),
            fun q hq => by rw [ih2 q (hp1 q hq), hp2 q hq]⟩

lemma organizeGo_nil (dest : String) (fs : FS) (placed unplaced : List String) :
    organizeGo dest fs [] placed unplaced = (.ok (placed, unplaced), fs) := rfl

/-- Shape of the generated name: the original filename or a suffixed candidate. -/
lemma guf_shape (fs : FS) (dir filename : String) :
    generate_unique_filename fs dir filename = filename ∨
    ∃ k, 1 ≤ k ∧ generate_unique_filename fs dir filename
      = cand (splitext filename).1 (splitext filename).2 k := by
  rw [generate_unique_filename]
  rcases gufFuel_shape fs dir (splitext filename).1 (splitext filename).2
      (fs.files.length + fs.dirs.length + 2) 1 filename with h | ⟨j, hj1, hj2⟩
  · exact .inl h
  · exact .inr ⟨j, hj1, hj2⟩

/-- The organizer can fail only with a not-found or copy fault, never with a
directory-already-exists error: `makedirs` is guarded by an existence check. -/
lemma organizeGo_no_dir_exists (dest : String) :
    ∀ (walk : List (String × String)) (fs : FS) (placed unplaced : List String),
      (organizeGo dest fs walk placed unplaced).1 ≠ .error .fileExists := by
  intro walk
  induction walk with
  | nil =>
    intro fs placed unplaced h
    rw [organizeGo_nil] at h
    cases h
  | cons rf rest ih =>
    intro fs placed unplaced
    rw [organizeGo_cons]
    cases hpf : processFile dest fs rf.1 rf.2 with
    | mk r fsx =>
      cases r with
      | error e =>
        intro hc
        injection hc with h1
        exact (processFile_err_inv hpf).1 h1
      | ok o =>
        cases o with
        | none => exact ih fsx placed _
        | some t => exact ih fsx _ unplaced

/-- Master specification of a successful organizer run, by induction over the
remaining walk.  States are related back to the pre-run filesystem `fs₀`. -/
lemma organizeGo_ok_spec (dest : String) (fs₀ : FS) :
    ∀ (walk : List (String × String)) (fs : FS)
      (placed unplaced placed2 unplaced2 : List String) (fs2 : FS),
      (∀ q, pathExistsB fs₀ q = true → pathExistsB fs q = true) →
      (∀ q, pathExistsB fs₀ q = true → alookup q fs.files = alookup q fs₀.files) →
      (∀ rf ∈ walk, isFileB fs₀ (pjoin rf.1 rf.2) = true) →
      organizeGo dest fs walk placed unplaced = (.ok (placed2, unplaced2), fs2) →
      (unplaced2 = unplaced ++ (walk.filter (fun rf => (classify rf.2).isNone)).map
          (fun rf => pjoin rf.1 rf.2))
      ∧ placed2.length = placed.length
          + (walk.filter (fun rf => (classify rf.2).isSome)).length
      ∧ (∀ q ∈ placed2, q ∈ placed ∨
          (pathExistsB fs₀ q = false ∧
           ∃ rf ∈ walk, ∃ fd cat name,
             alookup (pjoin rf.1 rf.2) fs₀.files = some fd ∧
             classify rf.2 = some cat ∧
             q = pjoin (targetDirOf dest (creationDateOf fd (pjoin rf.1 rf.2)) cat) name ∧
             (name = rf.2 ∨ ∃ k, 1 ≤ k ∧
               name = cand (splitext rf.2).1 (splitext rf.2).2 k))) := by
  intro walk
  induction walk with
  | nil =>
    intro fs placed unplaced placed2 unplaced2 fs2 hp1 hp2 hwalk h
    rw [organizeGo_nil] at h
    simp only [Prod.mk.injEq, Except.ok.injEq] at h
    obtain ⟨⟨rfl, rfl⟩, rfl⟩ := h
    exact ⟨by simp, by simp, fun q hq => .inl hq⟩
  | cons rf rest ih =>
    intro fs placed unplaced placed2 unplaced2 fs2 hp1 hp2 hwalk h
    rw [organizeGo_cons] at h
    cases hpf : processFile dest fs rf.1 rf.2 with
    | mk r fsx =>
      rw [hpf] at h
      cases r with
      | error e => simp at h
      | ok o =>
        cases o with
        | none =>
          obtain ⟨hcl, rfl⟩ := processFile_none_inv hpf
          obtain ⟨ih1, ih2, ih3⟩ :=
            ih fsx placed (unplaced ++ [pjoin rf.1 rf.2]) placed2 unplaced2 fs2 hp1 hp2
              (fun x hx => hwalk x (List.mem_cons_of_mem _ hx)) h
          have hno : (classify rf.2).isNone = true := by rw [hcl]; rfl
          have hso : (classify rf.2).isSome = false := by rw [hcl]; rfl
          refine ⟨?_, ?_, ?_⟩
          · rw [ih1, List.filter_cons]
            simp [hno, List.append_assoc]
          · rw [ih2, List.filter_cons]
            simp [hso]
          · intro q hq
            rcases ih3 q hq with hq1 | hq2
            · exact .inl hq1
            · right
              obtain ⟨hne, rf', hrf', hrest⟩ := hq2
              exact ⟨hne, rf', List.mem_cons_of_mem _ hrf', hrest⟩
        | some t =>
          obtain ⟨d, cat, fs1, fd', hgd, hcl, hf1, hmono, ht, hfresh, hfd, rfl⟩ :=
            processFile_some_inv hpf
          have hp1' : ∀ q, pathExistsB fs₀ q = true →
              pathExistsB { fs1 with files := (t, fd') :: fs1.files } q = true :=
            fun q hq => pathExistsB_cons fs1 t fd' (hmono q (hp1 q hq))
          have hp2' : ∀ q, pathExistsB fs₀ q = true →
              alookup q ((t, fd') :: fs1.files) = alookup q fs₀.files := by
            intro q hq
            have hq1 : pathExistsB fs1 q = true := hmono q (hp1 q hq)
            have hne : t ≠ q := by
              intro hqt
              rw [hqt, hq1] at hfresh
              cases hfresh
            rw [alookup_cons_ne hne, hf1, hp2 q hq]
          obtain ⟨ih1, ih2, ih3⟩ :=
            ih { fs1 with files := (t, fd') :: fs1.files } (placed ++ [t]) unplaced
              placed2 unplaced2 fs2 hp1' hp2'
              (fun x hx => hwalk x (List.mem_cons_of_mem _ hx)) h
          have hwrf := hwalk rf (List.mem_cons_self _ _)
          obtain ⟨fd0, hfd0⟩ := isSome_exists hwrf
          have hpe0 : pathExistsB fs₀ (pjoin rf.1 rf.2) = true := by
            simp [pathExistsB, isFileB, hfd0]
          have hfdeq : fd' = fd0 := by
            have h2 := hp2 (pjoin rf.1 rf.2) hpe0
            rw [hfd, hfd0] at h2
            exact Option.some.inj h2
          have hd : d = creationDateOf fd0 (pjoin rf.1 rf.2) := by
            have h2 := get_creation_date_of_lookup
              (show alookup (pjoin rf.1 rf.2) fs.files = some fd0 from by rw [hfd, hfdeq])
            rw [hgd] at h2
            exact Except.ok.inj h2
          have htfresh0 : pathExistsB fs₀ t = false := by
            cases hb : pathExistsB fs₀ t with
            | false => rfl
            | true =>
              have h2 := hmono t (hp1 t hb)
              rw [h2] at hfresh
              cases hfresh
          have hso : (classify rf.2).isSome = true := by rw [hcl]; rfl
          have hno : (classify rf.2).isNone = false := by rw [hcl]; rfl
          refine ⟨?_, ?_, ?_⟩
          · rw [ih1, List.filter_cons]
            simp [hno]
          · rw [ih2, List.filter_cons]
            simp [hso, List.length_append]
            omega
          · intro q hq
            rcases ih3 q hq with hq1 | hq2
            · rcases List.mem_append.mp hq1 with hq3 | hq3
              · exact .inl hq3
              · have hqt : q = t := by simpa using hq3
                right
                subst hqt
                refine ⟨htfresh0, rf, List.mem_cons_self _ _, fd0, cat,
                  generate_unique_filename fs1 (targetDirOf dest d cat) rf.2,
                  hfd0, hcl, ?_, ?_⟩
                · rw [← hd]
                  exact ht
                · rcases guf_shape fs1 (targetDirOf dest d cat) rf.2 with hs | ⟨k, hk1, hk2⟩
                  · exact .inl hs
                  · exact .inr ⟨k, hk1, hk2⟩
            · right
              obtain ⟨hne, rf', hrf', hrest⟩ := hq2
              exact ⟨hne, rf', List.mem_cons_of_mem _ hrf', hrest⟩

/-! ### Organizer-level claim theorems -/

lemma organize_files_snd {fs : FS} {dest : String} {walk : List (String × String)}
    {r : Except PyErr (List String × List String)} {fs2 : FS}
    (h : organize_files fs dest walk = (r, fs2)) :
    ∀ q, pathExistsB fs q = true →
      pathExistsB fs2 q = true ∧ alookup q fs2.files = alookup q fs.files := by
  intro q hq
  obtain ⟨h1, h2⟩ := organizeGo_pres dest walk fs [] []
  have hs : (organizeGo dest fs walk [] []).2 = fs2 := by
    rw [show organizeGo dest fs walk [] [] = organize_files fs dest walk from rfl, h]
  exact ⟨hs ▸ h1 q hq, hs ▸ h2 q hq⟩

lemma organize_files_keeps_file {fs : FS} {dest : String} {walk : List (String × String)}
    {r : Except PyErr (List String × List String)} {fs2 : FS}
    (h : organize_files fs dest walk = (r, fs2)) {q : String}
    (hq : isFileB fs q = true) : isFileB fs2 q = true := by
  have hpe : pathExistsB fs q = true := by simp [pathExistsB, hq]
  have h2 := (organize_files_snd h q hpe).2
  rw [isFileB, h2]
  exact hq

/-- C5: a successful organizer run copies and never moves — every file present
before the run is still present afterwards, with unchanged stored data. -/
theorem organize_copies_not_moves (fs : FS) (dest : String)
    (walk : List (String × String)) (res : List String × List String) (fs2 : FS)
    (h : organize_files fs dest walk = (.ok res, fs2)) :
    ∀ p, isFileB fs p = true →
      alookup p fs2.files = alookup p fs.files ∧ isFileB fs2 p = true := by
  intro p hp
  have hpe : pathExistsB fs p = true := by simp [pathExistsB, hp]
  have h2 := (organize_files_snd h p hpe).2
  exact ⟨h2, by rw [isFileB, h2]; exact hp⟩

/-- C6: a successful run partitions the walked files — the unplaced sequence
is exactly the source paths of the Unclassified files in walk order, the
placed sequence has one destination per classified file, and no path occurs
in both sequences. -/
theorem organize_partition (fs : FS) (dest : String) (walk : List (String × String))
    (placed unplaced : List String) (fs2 : FS)
    (hwalk : ∀ rf ∈ walk, isFileB fs (pjoin rf.1 rf.2) = true)
    (h : organize_files fs dest walk = (.ok (placed, unplaced), fs2)) :
    unplaced = (walk.filter (fun rf => (classify rf.2).isNone)).map
        (fun rf => pjoin rf.1 rf.2)
    ∧ placed.length = (walk.filter (fun rf => (classify rf.2).isSome)).length
    ∧ ∀ q ∈ placed, q ∉ unplaced := by
  obtain ⟨h1, h2, h3⟩ := organizeGo_ok_spec dest fs walk fs [] [] placed unplaced fs2
    (fun q hq => hq) (fun q _ => rfl) hwalk h
  refine ⟨by simpa using h1, by simpa using h2, ?_⟩
  intro q hq hqun
  rcases h3 q hq with hq1 | ⟨hne, -⟩
  · simp at hq1
  · rw [h1] at hqun
    simp only [List.nil_append, List.mem_map, List.mem_filter] at hqun
    obtain ⟨rf', ⟨hrfw, -⟩, rfl⟩ := hqun
    have hf := hwalk rf' hrfw
    rw [show pathExistsB fs (pjoin rf'.1 rf'.2) = true from by simp [pathExistsB, hf]] at hne
    cases hne

/-- C8: every placed path lies under
`dest/family/<year>/<month-name>/<category>/` for the file's resolved
creation date and classification, with the filename possibly suffixed; the
destination directory is a pure function of (root, label, date, category). -/
theorem destination_layout (fs : FS) (dest : String) (walk : List (String × String))
    (placed unplaced : List String) (fs2 : FS)
    (hwalk : ∀ rf ∈ walk, isFileB fs (pjoin rf.1 rf.2) = true)
    (h : organize_files fs dest walk = (.ok (placed, unplaced), fs2)) :
    (∀ q ∈ placed, ∃ rf ∈ walk, ∃ fd cat name,
        alookup (pjoin rf.1 rf.2) fs.files = some fd ∧
        classify rf.2 = some cat ∧
        q = pjoin (targetDirOf dest (creationDateOf fd (pjoin rf.1 rf.2)) cat) name ∧
        (name = rf.2 ∨ ∃ k, 1 ≤ k ∧ name = cand (splitext rf.2).1 (splitext rf.2).2 k))
    ∧ ∀ d cat, targetDirOf dest d cat
        = pjoin (pjoin (pjoin (pjoin dest "family") (Nat.repr d.year))
            (monthName d.month)) cat := by
  obtain ⟨-, -, h3⟩ := organizeGo_ok_spec dest fs walk fs [] [] placed unplaced fs2
    (fun q hq => hq) (fun q _ => rfl) hwalk h
  refine ⟨?_, fun d cat => rfl⟩
  intro q hq
  rcases h3 q hq with hq1 | ⟨-, hsh⟩
  · simp at hq1
  · exact hsh

/-- C9: the organizer guards every `makedirs` call with an existence check, so
no run — including a rerun over a destination already populated by a previous
run — can fail with a directory-already-exists error. -/
theorem organize_dir_creation_idempotent (fs : FS) (dest : String)
    (walk : List (String × String)) :
    (organize_files fs dest walk).1 ≠ .error .fileExists
    ∧ (organize_files (organize_files fs dest walk).2 dest walk).1
        ≠ .error .fileExists :=
  ⟨organizeGo_no_dir_exists dest walk fs [] [],
   organizeGo_no_dir_exists dest walk _ [] []⟩

/-! ### Run-controller lemmas -/

lemma alookup_filter_not_under {dir p : String} (hp : underPath dir p = true) :
    ∀ l : List (String × FileData),
      alookup p (l.filter (fun e => !underPath dir e.1)) = none := by
  intro l
  induction l with
  | nil => rfl
  | cons e l ih =>
    rw [List.filter_cons]
    cases he : underPath dir e.1 with
    | true => simpa [he] using ih
    | false =>
      have hne : e.1 ≠ p := by
        intro hep
        rw [hep, hp] at he
        cases he
      simpa [he, alookup, hne] using ih

lemma rmtree_removes {fs : FS} {dir p : String} (hp : underPath dir p = true) :
    pathExistsB (rmtree fs dir) p = false := by
  have h1 : isFileB (rmtree fs dir) p = false := by
    simp [isFileB, rmtree, alookup_filter_not_under hp]
  have h2 : isDirB (rmtree fs dir) p = false := by
    simp [isDirB, rmtree, List.mem_filter, hp]
  simp [pathExistsB, h1, h2]

lemma alookup_filter_keyfalse {p : String} {f : String × FileData → Bool}
    (hf : ∀ e : String × FileData, e.1 = p → f e = false) :
    ∀ l : List (String × FileData), alookup p (l.filter f) = none := by
  intro l
  induction l with
  | nil => rfl
  | cons e l ih =>
    rw [List.filter_cons]
    cases hfe : f e with
    | false => simpa using ih
    | true =>
      have hne : e.1 ≠ p := by
        intro hep
        rw [hf e hep] at hfe
        cases hfe
      rw [if_pos rfl, alookup, if_neg hne]
      exact ih

lemma alookup_filter_ne (p : String) : ∀ l : List (String × FileData),
    alookup p (l.filter (fun e => decide (e.1 ≠ p))) = none :=
  alookup_filter_keyfalse (fun e hep => by simp [hep])

lemma alookup_none_filter {p : String} (f : String × FileData → Bool) :
    ∀ l : List (String × FileData),
      alookup p l = none → alookup p (l.filter f) = none := by
  intro l
  induction l with
  | nil => intro _; rfl
  | cons e l ih =>
    intro h
    by_cases he : e.1 = p
    · simp [alookup, he] at h
    · rw [alookup, if_neg he] at h
      rw [List.filter_cons]
      cases hf : f e with
      | true => simpa [alookup, he] using ih h
      | false => simpa using ih h

lemma osRemove_ok_inv {fs : FS} {p : String} {fs2 : FS} (h : osRemove fs p = .ok fs2) :
    fs2 = { fs with files := fs.files.filter (fun e => decide (e.1 ≠ p)) } := by
  unfold osRemove at h
  split at h
  · cases h
  · cases h
    rfl

lemma osRemove_removes {fs : FS} {p : String} {fs2 : FS} (h : osRemove fs p = .ok fs2) :
    isFileB fs2 p = false := by
  rw [osRemove_ok_inv h]
  show (alookup p (fs.files.filter (fun e => decide (e.1 ≠ p)))).isSome = false
  rw [alookup_filter_ne]
  rfl

lemma osRemove_no_new {fs : FS} {p : String} {fs2 : FS} (h : osRemove fs p = .ok fs2)
    {q : String} (hq : pathExistsB fs q = false) : pathExistsB fs2 q = false := by
  rw [osRemove_ok_inv h]
  rw [pathExistsB, Bool.or_eq_false_iff] at hq ⊢
  obtain ⟨hq1, hq2⟩ := hq
  constructor
  · have hq1n : alookup q fs.files = none := by
      cases hal : alookup q fs.files with
      | none => rfl
      | some fd => rw [isFileB, hal] at hq1; cases hq1
    show (alookup q (fs.files.filter (fun e => decide (e.1 ≠ p)))).isSome = false
    rw [alookup_none_filter _ _ hq1n]
    rfl
  · exact hq2

lemma alookup_append_isSome {q : String} :
    ∀ l1 l2 : List (String × FileData),
      ((alookup q l1).isSome = true ∨ (alookup q l2).isSome = true) →
      (alookup q (l1 ++ l2)).isSome = true := by
  intro l1
  induction l1 with
  | nil =>
    intro l2 h
    rcases h with h | h
    · exact absurd h (by simp [alookup])
    · simpa using h
  | cons e l ih =>
    intro l2 h
    by_cases he : e.1 = q
    · simp [alookup, he]
    · simp only [alookup, he, if_false] at h
      simp only [List.cons_append, alookup, he, if_false]
      exact ih l2 h

lemma alookup_isSome_of_mem_keys {q : String} : ∀ l : List (String × FileData),
    q ∈ l.map Prod.fst → (alookup q l).isSome = true := by
  intro l
  induction l with
  | nil => intro h; simp at h
  | cons e l ih =>
    intro h
    by_cases he : e.1 = q
    · simp [alookup, he]
    · rw [alookup, if_neg he]
      apply ih
      rcases List.mem_map.mp h with ⟨x, hx, hq⟩
      rcases List.mem_cons.mp hx with rfl | hx2
      · exact absurd hq he
      · exact List.mem_map.mpr ⟨x, hx2, hq⟩

lemma extract_zip_ok_inv {fs : FS} {entries : List (String × FileData)} {fs1 : FS}
    (h : extract_zip fs entries = .ok fs1) :
    isFileB fs zip_file_path = true ∧ fs1 = addZipEntries fs entries := by
  unfold extract_zip at h
  split at h
  · next hz =>
    cases h
    exact ⟨hz, rfl⟩
  · cases h

lemma addZipEntries_keeps_file {fs : FS} (entries : List (String × FileData)) {q : String}
    (h : isFileB fs q = true) : isFileB (addZipEntries fs entries) q = true := by
  show (alookup q ((entries.map fun e => (pjoin extract_to e.1, e.2)) ++ fs.files)).isSome
    = true
  exact alookup_append_isSome _ _ (.inr h)

lemma addZipEntries_entry_file {fs : FS} {entries : List (String × FileData)}
    {en : String × FileData} (h : en ∈ entries) :
    isFileB (addZipEntries fs entries) (pjoin extract_to en.1) = true := by
  show (alookup (pjoin extract_to en.1)
    ((entries.map fun e => (pjoin extract_to e.1, e.2)) ++ fs.files)).isSome = true
  apply alookup_append_isSome
  left
  apply alookup_isSome_of_mem_keys
  simp only [List.map_map]
  exact List.mem_map.mpr ⟨en, h, rfl⟩

lemma addZipEntries_staging_dir (fs : FS) (entries : List (String × FileData)) :
    pathExistsB (addZipEntries fs entries) extract_to = true := by
  simp [pathExistsB, isDirB, addZipEntries]

lemma organizeGo_append (dest : String) :
    ∀ (l1 l2 : List (String × String)) (fs : FS) (placed unplaced : List String),
      organizeGo dest fs (l1 ++ l2) placed unplaced =
        match organizeGo dest fs l1 placed unplaced with
        | (.ok (p, u), fsm) => organizeGo dest fsm l2 p u
        | (.error e, fsm) => (.error e, fsm) := by
  intro l1
  induction l1 with
  | nil => intro l2 fs placed unplaced; rfl
  | cons rf rest ih =>
    intro l2 fs placed unplaced
    rw [List.cons_append, organizeGo_cons, organizeGo_cons]
    cases hpf : processFile dest fs rf.1 rf.2 with
    | mk r fsx =>
      cases r with
      | error e => rfl
      | ok o =>
        cases o with
        | none => exact ih l2 fsx placed _
        | some t => exact ih l2 fsx _ unplaced

/-- C1: in the zip-processing run, when the returned unplaced sequence is
empty the staging tree and the source archive are gone afterwards; when it
is non-empty, the archive, the staging directory and every extracted entry
are still present. -/
theorem cleanup_gating (fs : FS) (entries : List (String × FileData))
    (walk : List (String × String)) (copied remaining : List String) (fs3 : FS)
    (h : process_zip_and_organize_files fs entries walk
      = (.ok (copied, remaining), fs3)) :
    (remaining = [] →
      (∀ p, underPath extract_to p = true → pathExistsB fs3 p = false) ∧
      isFileB fs3 zip_file_path = false)
  ∧ (remaining ≠ [] →
      isFileB fs3 zip_file_path = true ∧ pathExistsB fs3 extract_to = true ∧
      ∀ en ∈ entries, isFileB fs3 (pjoin extract_to en.1) = true) := by
  unfold process_zip_and_organize_files at h
  split at h
  · cases h
  · next fs1 hex2 =>
    obtain ⟨hzip0, hfs1⟩ := extract_zip_ok_inv hex2
    subst hfs1
    split at h
    · cases h
    · next copied2 remaining2 fs2 horg =>
      have hstage2 : pathExistsB fs2 extract_to = true :=
        (organize_files_snd horg extract_to (addZipEntries_staging_dir fs entries)).1
      split at h
      · next hemp =>
        have hnil : remaining2 = [] := by
          cases remaining2 with
          | nil => rfl
          | cons a as => cases hemp
        subst hnil
        split at h
        · cases h
        · next fs4 hrem =>
          simp only [Prod.mk.injEq, Except.ok.injEq] at h
          obtain ⟨⟨rfl, rfl⟩, rfl⟩ := h
          constructor
          · intro _
            refine ⟨?_, osRemove_removes hrem⟩
            intro p hp
            have hclean : clean_up fs2 extract_to = rmtree fs2 extract_to := by
              unfold clean_up
              rw [if_pos hstage2]
            have h1 : pathExistsB (clean_up fs2 extract_to) p = false := by
              rw [hclean]
              exact rmtree_removes hp
            exact osRemove_no_new hrem h1
          · intro hre
            exact absurd rfl hre
      · next hemp =>
        simp only [Prod.mk.injEq, Except.ok.injEq] at h
        obtain ⟨⟨rfl, rfl⟩, rfl⟩ := h
        constructor
        · intro hre
          rw [hre] at hemp
          exact absurd rfl hemp
        · intro _
          refine ⟨?_, hstage2, ?_⟩
          · exact organize_files_keeps_file horg
              (addZipEntries_keeps_file entries hzip0)
          · intro en hen
            exact organize_files_keeps_file horg (addZipEntries_entry_file hen)

/-- C7: an injected copy fault aborts the organizer with the propagated
error and no result lists, makes the whole zip-processing run fail, and
leaves the archive and every staged file in place — no cleanup happens. -/
theorem copy_failure_fatal (fs fsE : FS) (entries : List (String × FileData))
    (walk1 walk2 : List (String × String)) (x : String × String)
    (pl ul : List String) (fsA fsB : FS)
    (hex : extract_zip fs entries = .ok fsE)
    (hpre : organizeGo dest_dir fsE walk1 [] [] = (.ok (pl, ul), fsA))
    (hx : processFile dest_dir fsA x.1 x.2 = (.error .copyFail, fsB)) :
    organize_files fsE dest_dir (walk1 ++ x :: walk2) = (.error .copyFail, fsB)
    ∧ process_zip_and_organize_files fs entries (walk1 ++ x :: walk2)
        = (.error .copyFail, fsB)
    ∧ isFileB fsB zip_file_path = true
    ∧ (∀ q, isFileB fsE q = true → isFileB fsB q = true) := by
  have horg : organize_files fsE dest_dir (walk1 ++ x :: walk2)
      = (.error .copyFail, fsB) := by
    show organizeGo dest_dir fsE (walk1 ++ x :: walk2) [] [] = (.error .copyFail, fsB)
    rw [organizeGo_append, hpre]
    show organizeGo dest_dir fsA (x :: walk2) pl ul = (.error .copyFail, fsB)
    rw [organizeGo_cons, hx]
  have hkeep : ∀ q, isFileB fsE q = true → isFileB fsB q = true :=
    fun q hq => organize_files_keeps_file horg hq
  refine ⟨horg, ?_, ?_, hkeep⟩
  · unfold process_zip_and_organize_files
    split
    · next e heq =>
      rw [hex] at heq
      cases heq
    · next fs1 heq =>
      rw [hex] at heq
      cases heq
      split
      · next e2 fs2x heq2 =>
        rw [horg] at heq2
        cases heq2
        rfl
      · next copied2 remaining2 fs2x heq2 =>
        rw [horg] at heq2
        cases heq2
  · obtain ⟨hzip0, rfl⟩ := extract_zip_ok_inv hex
    exact hkeep zip_file_path (addZipEntries_keeps_file entries hzip0)

/-! ### Concrete witness scenarios -/

def zipData : FileData := { content := 9, mtime := ⟨1, 1⟩, exif := .err, video := .err }

/-- A filesystem holding just the archive. -/
def baseFS : FS := { files := [(zip_file_path, zipData)], dirs := [], copyFailAt := [] }

def wEntries : List (String × FileData) := [("a.jpg", sampleFile)]

def wWalk : List (String × String) := [(extract_to, "a.jpg")]

def w1run : Except PyErr (List String × List String) × FS :=
  process_zip_and_organize_files baseFS wEntries wWalk

/-- Witness for C1: a fully-placed zip run removes the staged file and the
archive. -/
theorem cleanup_gating_witness :
    isFileB w1run.2 zip_file_path = false ∧
    pathExistsB w1run.2 (pjoin extract_to "a.jpg") = false := by
  obtain ⟨hc, -⟩ := cleanup_gating baseFS wEntries wWalk
    ["/path/to/destination/directory/family/3/June/Pictures/a.jpg"] [] w1run.2 rfl
  obtain ⟨hall, hzip⟩ := hc rfl
  exact ⟨hzip, hall _ (by decide)⟩

def srcFS : FS := { files := [(pjoin "s" "a.jpg", sampleFile)], dirs := [], copyFailAt := [] }

def wWalkS : List (String × String) := [("s", "a.jpg")]

def w5run : Except PyErr (List String × List String) × FS :=
  organize_files srcFS "/out" wWalkS

/-- Witness for C5: after a run the source file still exists with its data. -/
theorem organize_copies_not_moves_witness :
    alookup (pjoin "s" "a.jpg") w5run.2.files = some sampleFile ∧
    isFileB w5run.2 (pjoin "s" "a.jpg") = true := by
  obtain ⟨h1, h2⟩ := organize_copies_not_moves srcFS "/out" wWalkS
    (["/out/family/3/June/Pictures/a.jpg"], []) w5run.2 rfl (pjoin "s" "a.jpg") (by decide)
  exact ⟨h1.trans (by decide), h2⟩

def src6FS : FS :=
  { files := [(pjoin "s" "a.jpg", sampleFile), (pjoin "s" "notes.txt", sampleFile)],
    dirs := [], copyFailAt := [] }

def w6walk : List (String × String) := [("s", "a.jpg"), ("s", "notes.txt")]

def w6run : Except PyErr (List String × List String) × FS :=
  organize_files src6FS "/out" w6walk

/-- Witness for C6: one classified and one unclassified file partition as
expected, and the placed path is not among the unplaced ones. -/
theorem organize_partition_witness :
    ["s/notes.txt"] = (w6walk.filter (fun rf => (classify rf.2).isNone)).map
        (fun rf => pjoin rf.1 rf.2)
    ∧ (["/out/family/3/June/Pictures/a.jpg"] : List String).length
        = (w6walk.filter (fun rf => (classify rf.2).isSome)).length
    ∧ "/out/family/3/June/Pictures/a.jpg" ∉ (["s/notes.txt"] : List String) := by
  obtain ⟨h1, h2, h3⟩ := organize_partition src6FS "/out" w6walk
    ["/out/family/3/June/Pictures/a.jpg"] ["s/notes.txt"] w6run.2 (by decide) rfl
  exact ⟨h1, h2, h3 _ (by decide)⟩

def failFS : FS :=
  { files := [(zip_file_path, zipData)], dirs := [],
    copyFailAt := ["/path/to/destination/directory/family/3/June/Pictures/a.jpg"] }

def w7fsB : FS := (processFile dest_dir (addZipEntries failFS wEntries) extract_to "a.jpg").2

/-- Witness for C7: with a fault injected at the copy destination, the whole
zip run fails with the copy error and the archive survives. -/
theorem copy_failure_fatal_witness :
    process_zip_and_organize_files failFS wEntries [(extract_to, "a.jpg")]
      = (.error .copyFail, w7fsB)
    ∧ isFileB w7fsB zip_file_path = true := by
  obtain ⟨-, h2, h3, -⟩ := copy_failure_fatal failFS (addZipEntries failFS wEntries) wEntries
    [] [] (extract_to, "a.jpg") [] [] (addZipEntries failFS wEntries) w7fsB rfl rfl rfl
  exact ⟨h2, h3⟩

/-- Witness for C8: the concrete placed path decomposes into the documented
layout for the file's resolved date and category. -/
theorem destination_layout_witness :
    ∃ rf ∈ wWalkS, ∃ fd cat name,
      alookup (pjoin rf.1 rf.2) srcFS.files = some fd ∧
      classify rf.2 = some cat ∧
      "/out/family/3/June/Pictures/a.jpg"
        = pjoin (targetDirOf "/out" (creationDateOf fd (pjoin rf.1 rf.2)) cat) name ∧
      (name = rf.2 ∨ ∃ k, 1 ≤ k ∧ name = cand (splitext rf.2).1 (splitext rf.2).2 k) := by
  have h := (destination_layout srcFS "/out" wWalkS
    ["/out/family/3/June/Pictures/a.jpg"] [] w5run.2 (by decide) rfl).1
  exact h _ (by decide)

end IphoneBackup
